import Mathlib

/-!
Verification development for the yawf request-dispatch core.

The Go sources are shallowly embedded:
- return values of a handler (Go `[]reflect.Value`) become `List RVal`;
- the response writer (the `ResponseWriter` wrapper, whose implementation is
  not part of these sources; `Written` is modelled from the spec as "some
  status or body bytes were emitted") becomes `RW`;
- the two return protocols `defaultRouterReturnHandler` and
  `defaultMiddlewareReturnHandler` (return_handler.go) become pure functions
  from the value list and writer state to the new writer state plus a flag
  recording whether `ctx.Stop()` was called;
- a handler's observable behaviour during one invocation (it may write to the
  response, call `Stop()` on the context it resolves, and return values)
  becomes the effect record `HEff`; handlers that re-enter the chain through
  `Next()` are outside this model;
- the top-level run loop `context.run` and the route-scoped loop
  `routeContext.run` become the state-passing functions `runTop` and
  `runRoute`, each also returning the trace of invoked handler indices.

Machine integers are modelled as `Int`/`Nat`; none of the embedded code
overflows the 64-bit counters involved.
-/

namespace Yawf

/-- One returned `reflect.Value` of a handler, abstracted to the kinds the
return protocols inspect: booleans, integers, text, byte slices, and
anything else (already unwrapped; `canDeref`/`Elem` unwrapping is modelled
as values arriving unwrapped). -/
inductive RVal
  | rbool (b : Bool)
  | rint (n : Int)
  | rstr (s : List Char)
  | rbytes (bs : List Nat)
  | rother
deriving DecidableEq

/-- State of the response writer wrapper: the status code written by
`WriteHeader` (the net/http layer ignores all but the first), and the list
of byte chunks written by `Write`. -/
structure RW where
  status : Option Int
  chunks : List (List Nat)
deriving DecidableEq

def rwWrite (w : RW) (b : List Nat) : RW :=
  { w with chunks := w.chunks ++ [b] }

def rwWriteHeader (w : RW) (n : Int) : RW :=
  if w.status.isSome then w else { w with status := some n }

/-- Modelled from the spec: the response tracker records whether any
bytes/status have already been written (`ResponseWriter.Written`); the
wrapper implementation itself is not among the given sources. -/
def rwWritten (w : RW) : Bool :=
  w.status.isSome || !w.chunks.isEmpty

/-- Text rendered as its raw bytes (Go `[]byte(s)` on a string). -/
def strBytes (s : List Char) : List Nat :=
  s.map (fun c => c.toNat)

/-- Placeholder for `json.Marshal` output on a non-string, non-bytes value.
No claim inspects the JSON text, only that a write happens, so the rendering
is a fixed executable stand-in. -/
def jsonBytes : RVal → List Nat
  | RVal.rint n => strBytes (toString n).data
  | RVal.rbool b => strBytes (toString b).data
  | _ => strBytes "null".data

/-- Body bytes produced for the selected response value (return_handler.go
lines 45-55 and 89-99): byte slices verbatim, strings as their bytes, and
anything else JSON-serialised. -/
def bodyChunk : RVal → List Nat
  | RVal.rbytes bs => bs
  | RVal.rstr s => strBytes s
  | v => jsonBytes v

/-- The "no write" test shared by both protocols (return_handler.go lines 21
and 63): zero values, or at least one value whose first element is a boolean
holding `true`. -/
def passthroughVals : List RVal → Bool
  | [] => true
  | v :: _ => decide (v = RVal.rbool true)

/-- Status code selection for the two-or-more-values branch: the first value
if it is an integer, otherwise 200. -/
def statusOf (v : RVal) : Int :=
  match v with
  | RVal.rint n => n
  | _ => 200

/-- `defaultRouterReturnHandler` (return_handler.go lines 17-57) as a pure
function: given the returned values and the writer state, produce the new
writer state and whether `ctx.Stop()` was called. -/
def routerReturnHandler (vals : List RVal) (w : RW) : RW × Bool :=
  if passthroughVals vals then (w, false)
  else if vals = [RVal.rbool false] then (rwWrite w [], true)
  else
    match vals with
    | v1 :: v2 :: _ => (rwWrite (rwWriteHeader w (statusOf v1)) (bodyChunk v2), false)
    | [v] => (rwWrite w (bodyChunk v), false)
    | [] => (w, false)

/-- `defaultMiddlewareReturnHandler` (return_handler.go lines 59-101): same
value interpretation, but `ctx.Stop()` is also called (line 88) before the
body write in every non-passthrough branch. -/
def middlewareReturnHandler (vals : List RVal) (w : RW) : RW × Bool :=
  if passthroughVals vals then (w, false)
  else if vals = [RVal.rbool false] then (rwWrite w [], true)
  else
    match vals with
    | v1 :: v2 :: _ => (rwWrite (rwWriteHeader w (statusOf v1)) (bodyChunk v2), true)
    | [v] => (rwWrite w (bodyChunk v), true)
    | [] => (w, false)

/-- Observable behaviour of one handler invocation: whether it calls
`Stop()` on the context it resolves, an optional direct body write through
the response writer, and its returned values. -/
structure HEff where
  callsStop : Bool
  hwrite : Option (List Nat)
  ret : List RVal
deriving DecidableEq

def applyWrite (w : RW) : Option (List Nat) → RW
  | some b => rwWrite w b
  | none => w

/-- The inert handler effect (used as the `getD` default; never selected at
an in-range index). -/
def dEff : HEff := ⟨false, none, []⟩

/-- `context.IsStopped` (part_000 lines 62-64): `!(c.index <= len(c.handlers))`.
The cursor is a Go `int` that starts at `-1`. -/
def isStoppedGo (index : Int) (nHandlers : Nat) : Bool :=
  !(index ≤ (nHandlers : Int))

/-- `context.handler` (part_000 lines 48-56) for the cursor values the run
loop can present (`0 ≤ idx ≤ len`): chain member below the length, the
terminal action at the length.  Other cursor values panic in Go and are
never reached under the loop guard. -/
def ctxEff (handlers : List HEff) (action : HEff) (idx : Nat) : HEff :=
  if idx < handlers.length then handlers.getD idx dEff else action

/-- Cursor position after one iteration of `context.run`: the handler's
own `Stop()` (if any) sets it to `len+1`, the protocol's `Stop()` (if any)
sets it to `len+1`, and then `c.index += 1` advances it. -/
def nextTopIdx (n idx : Nat) (hstop pstop : Bool) : Nat :=
  (if pstop then n + 1 else if hstop then n + 1 else idx) + 1

/-- `context.run` (part_000 lines 66-85), instrumented with the trace of
invoked cursor positions.  Per iteration: invoke the current handler (its
`Stop()` call lands on this same context), feed the returned values to the
middleware return protocol (whose `Stop()` also lands here), advance the
cursor, and exit once the response is written or the context is stopped.
The loop is only ever entered with a non-negative cursor (`Next()` moves
`-1` to `0`), so the cursor is a `Nat` here; `Stop` sets it to `len+1`.
The first argument is structural-recursion fuel; the cursor strictly
increases and the loop runs only while it is at most the chain length, so
`len + 1 - idx` steps (supplied by `runTop`) always suffice. -/
def runTopF : Nat → List HEff → HEff → Nat → RW → Nat × RW × List Nat
  | 0, _, _, idx, w => (idx, w, [])
  | fuel + 1, handlers, action, idx, w =>
    if isStoppedGo (idx : Int) handlers.length then (idx, w, [])
    else
      let h := ctxEff handlers action idx
      let pr := middlewareReturnHandler h.ret (applyWrite w h.hwrite)
      let i3 := nextTopIdx handlers.length idx h.callsStop pr.2
      if rwWritten pr.1 then (i3, pr.1, [idx])
      else if isStoppedGo (i3 : Int) handlers.length then (i3, pr.1, [idx])
      else
        let r := runTopF fuel handlers action i3 pr.1
        (r.1, r.2.1, idx :: r.2.2)

def runTop (handlers : List HEff) (action : HEff) (idx : Nat) (w : RW) :
    Nat × RW × List Nat :=
  runTopF (handlers.length + 1 - idx) handlers action idx w

/-- `routeContext.run` (yawf.go lines 295-316), instrumented with the trace
of invoked route-handler indices.  The route context owns its own cursor
`ridx` but has no `Stop`/`IsStopped` of its own: a `Stop()` issued by a
route handler or by the route return protocol is the embedded top-level
context's `Stop`, so it sets the parent cursor `pidx` to `pn + 1` (where
`pn` is the parent chain length) and leaves `ridx` untouched.  The loop
runs the route protocol and returns as soon as a handler returns any
values, and also returns once the response is written; it never consults
`IsStopped`.  Result: final route cursor, final parent cursor, writer
state, trace.  The first argument is structural-recursion fuel; the route
cursor advances by one per iteration, so `len - ridx` steps (supplied by
`runRoute`) always suffice. -/
def runRouteF : Nat → List HEff → Nat → Nat → Nat → RW → Nat × Nat × RW × List Nat
  | 0, _, _, pidx, ridx, w => (ridx, pidx, w, [])
  | fuel + 1, rhandlers, pn, pidx, ridx, w =>
    if rhandlers.length ≤ ridx then (ridx, pidx, w, [])
    else
      let h := rhandlers.getD ridx dEff
      let w1 := applyWrite w h.hwrite
      let p1 := if h.callsStop then pn + 1 else pidx
      let r1 := ridx + 1
      if h.ret.isEmpty then
        if rwWritten w1 then (r1, p1, w1, [ridx])
        else
          let r := runRouteF fuel rhandlers pn p1 r1 w1
          (r.1, r.2.1, r.2.2.1, ridx :: r.2.2.2)
      else
        let pr := routerReturnHandler h.ret w1
        let p2 := if pr.2 then pn + 1 else p1
        (r1, p2, pr.1, [ridx])

def runRoute (rhandlers : List HEff) (pn : Nat) (pidx : Nat) (ridx : Nat)
    (w : RW) : Nat × Nat × RW × List Nat :=
  runRouteF (rhandlers.length - ridx) rhandlers pn pidx ridx w

/-- Server lifecycle state relevant to graceful shutdown: the active-request
counter (Go `int32`, far from overflow in any claim), the stopping flag,
and the number of values sent on the `cClose` channel. -/
structure SrvState where
  activeCount : Int
  isStopping : Bool
  closeSignals : Nat
deriving DecidableEq

/-- Counter/shutdown effect of one complete `ServeHTTP` call (part_000 lines
245-252).  The code runs the handler chain and then executes only
`atomic.AddInt32(&s.activeCount, -1)`: there is no increment anywhere in the
sources.  If the server is stopping and the decremented counter is zero it
sleeps the graceful delay and signals `cClose`. -/
def serveHTTPCounter (s : SrvState) : SrvState :=
  let ac := s.activeCount - 1
  { s with
    activeCount := ac
    closeSignals := if s.isStopping && ac == 0 then s.closeSignals + 1 else s.closeSignals }

/-- Modelled from the spec: `ServeHTTP` increments the active-request counter
before dispatch and decrements it after; this is the behaviour §4.5 of the
spec describes and which the struct comment on `activeCount` and the
`Stop`/`cClose` design require, but which the code lacks. -/
def serveHTTPCounterSpec (s : SrvState) : SrvState :=
  let ac := (s.activeCount + 1) - 1
  { s with
    activeCount := ac
    closeSignals := if s.isStopping && ac == 0 then s.closeSignals + 1 else s.closeSignals }

/-- `yawf.Stop` (part_000 lines 193-199): set the stopping flag, close the
listener (not modelled), and signal `cClose` immediately when the counter
is zero. -/
def stopServer (s : SrvState) : SrvState :=
  let s1 := { s with isStopping := true }
  if s1.activeCount == 0 then { s1 with closeSignals := s1.closeSignals + 1 } else s1

def chars (s : String) : List Char := s.data

/-- Abstract syntax of the regular-expression fragment produced by route
compilation and by user route patterns exercised here: literal characters,
character classes (possibly negated), concatenation, alternation (arising
from `?`), Kleene star, the empty string and the empty language.  Go's `.`
is the negated class excluding the newline. -/
inductive Rgx
  | rfail
  | reps
  | rlit (c : Char)
  | rcls (neg : Bool) (cs : List Char)
  | rcat (a b : Rgx)
  | ralt (a b : Rgx)
  | rstar (a : Rgx)
deriving DecidableEq

def clsHolds (neg : Bool) (cs : List Char) (c : Char) : Bool :=
  if neg then !(cs.contains c) else cs.contains c

def nullable : Rgx → Bool
  | .rfail => false
  | .reps => true
  | .rlit _ => false
  | .rcls _ _ => false
  | .rcat a b => nullable a && nullable b
  | .ralt a b => nullable a || nullable b
  | .rstar _ => true

/-- Brzozowski derivative of a regex by one character. -/
def deriv : Rgx → Char → Rgx
  | .rfail, _ => .rfail
  | .reps, _ => .rfail
  | .rlit c, a => if a = c then .reps else .rfail
  | .rcls neg cs, a => if clsHolds neg cs a then .reps else .rfail
  | .rcat r1 r2, a =>
    if nullable r1 then .ralt (.rcat (deriv r1 a) r2) (deriv r2 a)
    else .rcat (deriv r1 a) r2
  | .ralt r1 r2, a => .ralt (deriv r1 a) (deriv r2 a)
  | .rstar r, a => .rcat (deriv r a) (.rstar r)

/-- Whole-string regex matching via derivatives. -/
def rmatch (r : Rgx) (s : List Char) : Bool :=
  nullable (s.foldl deriv r)

def alnumUnd (c : Char) : Bool := c.isAlpha || c.isDigit || c = '_'

/-- Members of a character class between `[`/`[^` and `]`; a `\x` escape
contributes `x` literally.  Ranges (`-`) are not needed by any pattern in
these sources and make parsing fail. -/
def parseClsChars : List Char → Option (List Char × List Char)
  | [] => none
  | ']' :: rest => some ([], rest)
  | '\\' :: c :: rest => (parseClsChars rest).map (fun p => (c :: p.1, p.2))
  | '-' :: _ => none
  | c :: rest =>
    if c = '\\' then none
    else (parseClsChars rest).map (fun p => (c :: p.1, p.2))

/-- A single trailing repetition operator after an atom (`?`, `*`, `+`). -/
def applyRepeatOp (r : Rgx) (s : List Char) : Rgx × List Char :=
  match s with
  | '?' :: rest => (.ralt r .reps, rest)
  | '*' :: rest => (.rstar r, rest)
  | '+' :: rest => (.rcat r (.rstar r), rest)
  | _ => (r, s)

/-- Fuel-indexed recursive-descent parse of a regex sequence, stopping at a
closing parenthesis or the end of input.  Covers the syntax emitted by
route compilation (`(?P<name>...)` groups, `[^...]` classes, `\x` escapes,
`.`, and `? * +`) plus plain literal characters.  Anchors, alternation
bars, counted repetition and a bare `]`/`}` are not needed by any pattern
considered here and make parsing fail (modelling a `MustCompile` panic as
`none` for the unsupported fragment). -/
def parseSeq (fuel : Nat) (s : List Char) (acc : Rgx) : Option (Rgx × List Char) :=
  match fuel with
  | 0 => none
  | fuel + 1 =>
    match s with
    | [] => some (acc, [])
    | ')' :: _ => some (acc, s)
    | '(' :: rest =>
      let body :=
        match rest with
        | '?' :: 'P' :: '<' :: r2 =>
          if (r2.takeWhile alnumUnd).isEmpty then none
          else
            match r2.dropWhile alnumUnd with
            | '>' :: r3 => some r3
            | _ => none
        | '?' :: _ => none
        | _ => some rest
      match body with
      | none => none
      | some inner =>
        match parseSeq fuel inner .reps with
        | some (g, ')' :: r4) =>
          let gp := applyRepeatOp g r4
          parseSeq fuel gp.2 (.rcat acc gp.1)
        | _ => none
    | '[' :: rest =>
      let nb :=
        match rest with
        | '^' :: r2 => (true, r2)
        | _ => (false, rest)
      match parseClsChars nb.2 with
      | some (cs, r3) =>
        if cs.isEmpty then none
        else
          let gp := applyRepeatOp (.rcls nb.1 cs) r3
          parseSeq fuel gp.2 (.rcat acc gp.1)
      | none => none
    | '\\' :: c :: rest =>
      let gp := applyRepeatOp (.rlit c) rest
      parseSeq fuel gp.2 (.rcat acc gp.1)
    | '\\' :: [] => none
    | '.' :: rest =>
      let gp := applyRepeatOp (.rcls true ['\n']) rest
      parseSeq fuel gp.2 (.rcat acc gp.1)
    | c :: rest =>
      if c = '|' ∨ c = '*' ∨ c = '+' ∨ c = '?' ∨ c = '^' ∨ c = '$' ∨
          c = '{' ∨ c = '}' ∨ c = ']' then none
      else
        let gp := applyRepeatOp (.rlit c) rest
        parseSeq fuel gp.2 (.rcat acc gp.1)

/-- Parse a complete regex text (models `regexp.MustCompile`, with `none`
for panic). -/
def parseRegexFull (s : List Char) : Option Rgx :=
  match parseSeq (2 * s.length + 4) s .reps with
  | some (r, []) => some r
  | _ => none

/-- The name charset of a `:name` route token: `routeReg1` is
`:[^/#?()\.\\]+`, so a name character is anything but these. -/
def colonNameExcluded : List Char := ['/', '#', '?', '(', ')', '.', '\\']

def colonNameOk (c : Char) : Bool := !(colonNameExcluded.contains c)

/-- `routeReg1.ReplaceAllStringFunc` step of `newRoute` (yawf.go lines
172-174): each `:name` token (leftmost, maximal run) becomes
`(?P<name>[^/#?]+)`.  Fuel-indexed structural recursion; each step consumes
at least one character, so fuel equal to the length (supplied by
`replaceColonTokens`) always suffices. -/
def replaceColonTokensF : Nat → List Char → List Char
  | 0, s => s
  | _, [] => []
  | fuel + 1, c :: rest =>
    if c = ':' ∧ rest.takeWhile colonNameOk ≠ [] then
      ('(' :: '?' :: 'P' :: '<' :: rest.takeWhile colonNameOk) ++
        ('>' :: '[' :: '^' :: '/' :: '#' :: '?' :: ']' :: '+' :: ')' :: []) ++
        replaceColonTokensF fuel (rest.dropWhile colonNameOk)
    else c :: replaceColonTokensF fuel rest

def replaceColonTokens (s : List Char) : List Char :=
  replaceColonTokensF s.length s

def starName (k : Nat) : List Char := '_' :: (toString k).data

/-- `routeReg2.ReplaceAllStringFunc` step of `newRoute` (yawf.go lines
175-179): the i-th `**` token becomes `(?P<_i>[^#?]*)`, counting from 1. -/
def replaceStarTokens : List Char → Nat → List Char
  | [], _ => []
  | '*' :: '*' :: rest, k =>
    ('(' :: '?' :: 'P' :: '<' :: starName (k + 1)) ++
      ('>' :: '[' :: '^' :: '#' :: '?' :: ']' :: '*' :: ')' :: []) ++
      replaceStarTokens rest (k + 1)
  | c :: rest, k => c :: replaceStarTokens rest k

/-- The regex text `newRoute` compiles: both token replacements, then the
appended `\/?` permitting one optional trailing slash (yawf.go line 180). -/
def compiledPatternText (pattern : List Char) : List Char :=
  replaceStarTokens (replaceColonTokens pattern) 0 ++ ('\\' :: '/' :: '?' :: [])

def compileRoutePattern (pattern : List Char) : Option Rgx :=
  parseRegexFull (compiledPatternText pattern)

/-- A compiled route: method, original pattern, compiled regex, name.
Handlers are not needed by the routing claims.  Submatch extraction into
the params map is not modelled; the claims below concern only the match
outcome. -/
structure RouteT where
  method : List Char
  pattern : List Char
  rgx : Rgx
  rname : List Char
deriving DecidableEq

/-- `newRoute` (yawf.go lines 170-183); `none` models a compile panic. -/
def newRouteModel (method pattern : List Char) : Option RouteT :=
  (compileRoutePattern pattern).map (fun r => ⟨method, pattern, r, []⟩)

def setRouteName (rt : RouteT) (nm : List Char) : RouteT := { rt with rname := nm }

/-- The longest whole-match at the head of `s`, if any. -/
def longestHeadMatch (r : Rgx) (s : List Char) : Option (List Char) :=
  ((List.range (s.length + 1)).reverse).findSome?
    (fun k => if rmatch r (s.take k) then some (s.take k) else none)

/-- Stand-in for `regexp.FindStringSubmatch`'s overall matched text: the
leftmost match, taking the longest at the first position that has one.
(Go's engine is leftmost-first rather than leftmost-longest; the two agree
on the greedy, alternation-free route regexes considered here, and
`route.Match` only accepts when the found text equals the whole path, which
in either semantics coincides with the regex matching the full path.) -/
def findLeftmost (r : Rgx) : List Char → Option (List Char)
  | [] => longestHeadMatch r []
  | c :: rest =>
    match longestHeadMatch r (c :: rest) with
    | some t => some t
    | none => findLeftmost r rest

/-- Match quality ranks (yawf.go lines 185-192); `BetterThan` is `>` on the
underlying iota values. -/
inductive RouteMatchKind
  | noMatch
  | starMatch
  | overloadMatch
  | exactMatch
deriving DecidableEq

def rmRank : RouteMatchKind → Nat
  | .noMatch => 0
  | .starMatch => 1
  | .overloadMatch => 2
  | .exactMatch => 3

def betterThan (r o : RouteMatchKind) : Bool := rmRank o < rmRank r

/-- `route.MatchMethod` (yawf.go lines 199-210), with its switch-case
order. -/
def matchMethodModel (routeMethod reqMethod : List Char) : RouteMatchKind :=
  if reqMethod = routeMethod then .exactMatch
  else if reqMethod = chars "HEAD" ∧ routeMethod = chars "GET" then .overloadMatch
  else if routeMethod = chars "*" then .starMatch
  else .noMatch

/-- `route.Match` (yawf.go lines 212-230), restricted to the returned rank:
method mismatch short-circuits; otherwise the found text must equal the
whole path (`matches[0] == path`). -/
def routeMatchRank (rt : RouteT) (method path : List Char) : RouteMatchKind :=
  let m := matchMethodModel rt.method method
  if m = .noMatch then .noMatch
  else
    match findLeftmost rt.rgx path with
    | some t => if t = path then m else .noMatch
    | none => .noMatch

/-- The scan loop of `router.Handle` (router.go lines 163-177): keep the
strictly better match, record its index, break on an exact match.  Also
returns how many routes were examined. -/
def scanRoutes (method path : List Char) :
    List RouteT → Nat → RouteMatchKind → Option Nat →
      RouteMatchKind × Option Nat × Nat
  | [], _, best, bi => (best, bi, 0)
  | rt :: rest, i, best, bi =>
    let m := routeMatchRank rt method path
    if betterThan m best then
      if m = .exactMatch then (m, some i, 1)
      else
        let r := scanRoutes method path rest (i + 1) m (some i)
        (r.1, r.2.1, r.2.2 + 1)
    else
      let r := scanRoutes method path rest (i + 1) best bi
      (r.1, r.2.1, r.2.2 + 1)

/-- `router.Handle`'s selection (router.go lines 163-190): the dispatched
route's index when the best rank is not `NoMatch`, otherwise `none`
standing for the not-found chain; paired with the number of routes
examined. -/
def handleSel (routes : List RouteT) (method path : List Char) : Option Nat × Nat :=
  let r := scanRoutes method path routes 0 .noMatch none
  (if r.1 ≠ .noMatch then r.2.1 else none, r.2.2)

/-- Rank maximum, for stating the scan's specification. -/
def maxRank (a b : RouteMatchKind) : RouteMatchKind :=
  if rmRank a < rmRank b then b else a

def bestRankOf (ms : List RouteMatchKind) : RouteMatchKind :=
  ms.foldl maxRank .noMatch

/-- Index of the first occurrence of a rank in a list. -/
def firstIdxOf : List RouteMatchKind → RouteMatchKind → Option Nat
  | [], _ => none
  | m :: ms, x => if m = x then some 0 else (firstIdxOf ms x).map (· + 1)

/-- Specification of the dispatch outcome, in the spec's words: the
earliest-registered route of the best rank, none when every rank is
`NoMatch`. -/
def dispatchSpec (ms : List RouteMatchKind) : Option Nat :=
  if bestRankOf ms = .noMatch then none
  else firstIdxOf ms (bestRankOf ms)

/-- Specification of the short-circuit: scanning stops right after the
first exact match, else visits every route. -/
def examinedSpec (ms : List RouteMatchKind) : Nat :=
  match firstIdxOf ms .exactMatch with
  | some j => j + 1
  | none => ms.length

/-- The name charset of `urlReg`'s group alternative, `[a-zA-Z0-9]+`. -/
def urlNameOk (c : Char) : Bool := c.isAlpha || c.isDigit

/-- One piece of a pattern as decomposed by `urlReg`
(`:[^/#?()\.\\]+|\(\?P<[a-zA-Z0-9]+>.*\)`): a literal character outside all
matches, or the full text of one match (a parameter token). -/
inductive UTok
  | ulit (c : Char)
  | utok (t : List Char)
deriving DecidableEq

/-- Position of the last `)` in `s`, if any; the greedy `.*` of `urlReg`'s
group alternative extends the match to it. -/
def lastCloseParen (s : List Char) : Option Nat :=
  match s.reverse.findIdx? (fun c => c = ')') with
  | some j => some (s.length - 1 - j)
  | none => none

/-- Decomposition of a pattern into `urlReg` matches and literal
characters, scanning left to right, each match maximal per its
subexpression (greedy `+` for `:name`, greedy `.*` reaching the last `)`
for the group form).  Fuel-indexed structural recursion; each step consumes
at least one character, so fuel equal to the length (supplied by
`urlTokens`) always suffices. -/
def urlTokensF : Nat → List Char → List UTok
  | 0, _ => []
  | _, [] => []
  | fuel + 1, c :: rest =>
    if c = ':' ∧ rest.takeWhile colonNameOk ≠ [] then
      .utok (':' :: rest.takeWhile colonNameOk) :: urlTokensF fuel (rest.dropWhile colonNameOk)
    else if c = '(' then
      match rest with
      | '?' :: 'P' :: '<' :: r2 =>
        if (r2.takeWhile urlNameOk).isEmpty then .ulit c :: urlTokensF fuel rest
        else
          match r2.dropWhile urlNameOk with
          | '>' :: r3 =>
            match lastCloseParen r3 with
            | some j =>
              .utok ('(' :: '?' :: 'P' :: '<' ::
                  (r2.takeWhile urlNameOk ++ ('>' :: r3.take (j + 1)))) ::
                urlTokensF fuel (r3.drop (j + 1))
            | none => .ulit c :: urlTokensF fuel rest
          | _ => .ulit c :: urlTokensF fuel rest
      | _ => .ulit c :: urlTokensF fuel rest
    else .ulit c :: urlTokensF fuel rest

def urlTokens (s : List Char) : List UTok :=
  urlTokensF s.length s

/-- The replacement pass of `URLWith` (yawf.go lines 248-266) over the
decomposed pattern: literal characters are copied; the i-th match is
replaced by the i-th argument when one exists, otherwise by its own text. -/
def substToks : List UTok → List (List Char) → Nat → List Char
  | [], _, _ => []
  | .ulit c :: ts, args, i => c :: substToks ts args i
  | .utok t :: ts, args, i =>
    (if i < args.length then args.getD i [] else t) ++ substToks ts args (i + 1)

/-- `route.URLWith` (yawf.go lines 248-266): with no arguments the pattern
is returned unchanged; otherwise every `urlReg` match is substituted in
order. -/
def urlWithModel (pattern : List Char) (args : List (List Char)) : List Char :=
  if 0 < args.length then substToks (urlTokens pattern) args 0 else pattern

/-- An argument to `URLFor`: integers are rendered in decimal, strings kept
(router.go lines 114-126; `nil` arguments are dropped and other kinds
panic, neither is modelled). -/
inductive UrlArg
  | argInt (n : Int)
  | argStr (s : List Char)
deriving DecidableEq

def urlArgString : UrlArg → List Char
  | .argInt n => (toString n).data
  | .argStr s => s

/-- `router.findRoute` (router.go lines 96-104): first route with the
name. -/
def findRouteModel (routes : List RouteT) (nm : List Char) : Option RouteT :=
  routes.find? (fun rt => rt.rname = nm)

/-- `router.URLFor` (router.go lines 107-129); `none` models the
"route not found" panic. -/
def urlForModel (routes : List RouteT) (nm : List Char) (params : List UrlArg) :
    Option (List Char) :=
  (findRouteModel routes nm).map
    (fun rt => urlWithModel rt.pattern (params.map urlArgString))

/-- One piece of a pattern for the spec-side reading of `URLWith`: a
literal character or a `:name` parameter token. -/
inductive PTok
  | plit (c : Char)
  | pparam (nm : List Char)
deriving DecidableEq

/-- Modelled from the spec: the parameter tokens of a pattern in the sense
of §4.2/§4.4 — each `:name` token (name: one or more characters excluding
`/ # ? ( ) . \`), everything else literal.  Defined independently of
`urlTokens` for the refinement comparison (the `(?P<...>...)` form cannot
occur in a pattern without `(`). -/
def specParamToksF : Nat → List Char → List PTok
  | 0, _ => []
  | _, [] => []
  | fuel + 1, c :: rest =>
    if c = ':' ∧ rest.takeWhile colonNameOk ≠ [] then
      .pparam (rest.takeWhile colonNameOk) :: specParamToksF fuel (rest.dropWhile colonNameOk)
    else .plit c :: specParamToksF fuel rest

def specParamToks (s : List Char) : List PTok :=
  specParamToksF s.length s

/-- Modelled from the spec: reverse-rendering substitutes each parameter
token, left to right, by the corresponding positional argument, leaving the
token's literal text when the arguments run out. -/
def renderSpecToks : List PTok → List (List Char) → List Char
  | [], _ => []
  | .plit c :: ts, args => c :: renderSpecToks ts args
  | .pparam nm :: ts, [] => ':' :: (nm ++ renderSpecToks ts [])
  | .pparam _ :: ts, a :: rest => a ++ renderSpecToks ts rest

/-- The `urlReg` token corresponding to a spec-side token: on a pattern
without `(`, the matches of `urlReg` are exactly the `:name` tokens. -/
def pconv : PTok → UTok
  | .plit c => .ulit c
  | .pparam nm => .utok (':' :: nm)

/-! Supporting lemmas. -/

theorem isStoppedGo_nat (idx n : Nat) :
    isStoppedGo (idx : Int) n = decide (n < idx) := by
  simp only [isStoppedGo]
  rcases Nat.lt_or_ge n idx with h | h
  · have h1 : ¬ ((idx : Int) ≤ (n : Int)) := by exact_mod_cast Nat.not_le.mpr h
    simp [h1, h]
  · have h1 : ((idx : Int) ≤ (n : Int)) := by exact_mod_cast h
    simp [h1, Nat.not_lt.mpr h]

theorem mrh_stop_of_not_passthrough (vals : List RVal) (w : RW)
    (h : passthroughVals vals = false) :
    (middlewareReturnHandler vals w).2 = true := by
  match vals with
  | [] => simp [passthroughVals] at h
  | [v] =>
    by_cases hf : v = RVal.rbool false
    · subst hf; rfl
    · simp [middlewareReturnHandler, h, hf]
  | v1 :: v2 :: vs => simp [middlewareReturnHandler, h]

theorem rrh_no_stop (vals : List RVal) (w : RW)
    (h : vals ≠ [RVal.rbool false]) :
    (routerReturnHandler vals w).2 = false := by
  match vals with
  | [] => rfl
  | [v] =>
    by_cases hv : v = RVal.rbool true
    · subst hv; rfl
    · have hf : v ≠ RVal.rbool false := by
        intro he
        exact h (by rw [he])
      simp [routerReturnHandler, passthroughVals, hv, hf]
  | v1 :: v2 :: vs =>
    by_cases hv : v1 = RVal.rbool true
    · subst hv; rfl
    · simp [routerReturnHandler, passthroughVals, hv]

theorem nextTopIdx_gt (n idx : Nat) (a b : Bool) (h : idx ≤ n) :
    idx < nextTopIdx n idx a b := by
  unfold nextTopIdx
  split
  · omega
  · split <;> omega

theorem nextTopIdx_pstop (n idx : Nat) (a : Bool) :
    nextTopIdx n idx a true = n + 2 := by
  simp [nextTopIdx]

theorem nextTopIdx_hstop (n idx : Nat) (b : Bool) :
    nextTopIdx n idx true b = n + 2 := by
  unfold nextTopIdx
  split <;> rfl

theorem nextTopIdx_quiet (n idx : Nat) :
    nextTopIdx n idx false false = idx + 1 := by
  simp [nextTopIdx]

theorem runTopF_trace_lb (handlers : List HEff) (action : HEff) :
    ∀ (fuel idx : Nat) (w : RW) (j : Nat),
      j ∈ (runTopF fuel handlers action idx w).2.2 → idx ≤ j := by
  intro fuel
  induction fuel with
  | zero => intro idx w j hj; simp [runTopF] at hj
  | succ fuel ih =>
    intro idx w j hj
    rw [runTopF] at hj
    simp only [] at hj
    split at hj
    · simp at hj
    · rename_i hg
      rw [isStoppedGo_nat] at hg
      simp only [decide_eq_true_eq] at hg
      split at hj
      · simp at hj
        omega
      · split at hj
        · simp at hj
          omega
        · rename_i hns
          rw [isStoppedGo_nat, decide_eq_true_eq] at hns
          simp only [List.mem_cons] at hj
          rcases hj with rfl | hj
          · omega
          · have h1 := ih _ _ _ hj
            have h2 := nextTopIdx_gt handlers.length idx
              (ctxEff handlers action idx).callsStop
              (middlewareReturnHandler (ctxEff handlers action idx).ret
                (applyWrite w (ctxEff handlers action idx).hwrite)).2 (by omega)
            omega

theorem runTopF_stop_confines (handlers : List HEff) (action : HEff) :
    ∀ (fuel idx : Nat) (w : RW) (i : Nat),
      i ∈ (runTopF fuel handlers action idx w).2.2 →
      (ctxEff handlers action i).callsStop = true →
      ∀ j ∈ (runTopF fuel handlers action idx w).2.2, j ≤ i := by
  intro fuel
  induction fuel with
  | zero => intro idx w i hi; simp [runTopF] at hi
  | succ fuel ih =>
    intro idx w i hi hstop j hj
    rcases hrun : runTopF (fuel + 1) handlers action idx w with ⟨fi, fw, tr⟩
    rw [hrun] at hi hj
    simp only at hi hj
    rw [runTopF] at hrun
    simp only [] at hrun
    split at hrun
    · rename_i hg
      cases hrun
      simp at hi
    · rename_i hg
      rw [isStoppedGo_nat, decide_eq_true_eq] at hg
      split at hrun
      · cases hrun
        simp at hi hj
        omega
      · split at hrun
        · cases hrun
          simp at hi hj
          omega
        · rename_i hnw hns
          cases hrun
          rw [isStoppedGo_nat, decide_eq_true_eq] at hns
          simp only [List.mem_cons] at hi hj
          rcases hi with rfl | hi
          · rw [hstop, nextTopIdx_hstop] at hns
            omega
          · have hji : ∀ j' ∈ (runTopF fuel handlers action
                (nextTopIdx handlers.length idx (ctxEff handlers action idx).callsStop
                  (middlewareReturnHandler (ctxEff handlers action idx).ret
                    (applyWrite w (ctxEff handlers action idx).hwrite)).2) (middlewareReturnHandler
                      (ctxEff handlers action idx).ret
                      (applyWrite w (ctxEff handlers action idx).hwrite)).1).2.2, j' ≤ i :=
              ih _ _ i hi hstop
            rcases hj with rfl | hj
            · have h1 := runTopF_trace_lb handlers action fuel _ _ i hi
              have h2 := nextTopIdx_gt handlers.length j
                (ctxEff handlers action j).callsStop
                (middlewareReturnHandler (ctxEff handlers action j).ret
                  (applyWrite w (ctxEff handlers action j).hwrite)).2 (by omega)
              omega
            · exact hji j hj

theorem runTopF_out_of_range (handlers : List HEff) (action : HEff)
    (fuel idx : Nat) (w : RW) (h : handlers.length < idx) :
    runTopF fuel handlers action idx w = (idx, w, []) := by
  cases fuel with
  | zero => rfl
  | succ fuel =>
    rw [runTopF]
    have hg : isStoppedGo (idx : Int) handlers.length = true := by
      rw [isStoppedGo_nat]; simpa
    simp [hg]

theorem runTopF_continue (handlers : List HEff) (action : HEff)
    (fuel idx : Nat) (w : RW)
    (hidx : idx ≤ handlers.length)
    (hs : (ctxEff handlers action idx).callsStop = false)
    (hw : (ctxEff handlers action idx).hwrite = none)
    (hp : passthroughVals (ctxEff handlers action idx).ret = true)
    (hnw : rwWritten w = false) :
    runTopF (fuel + 1) handlers action idx w =
      ((runTopF fuel handlers action (idx + 1) w).1,
       (runTopF fuel handlers action (idx + 1) w).2.1,
       idx :: (runTopF fuel handlers action (idx + 1) w).2.2) := by
  rw [runTopF]
  simp only []
  have hg : isStoppedGo (idx : Int) handlers.length = false := by
    rw [isStoppedGo_nat]; simp; omega
  have hpr : middlewareReturnHandler (ctxEff handlers action idx).ret
      (applyWrite w (ctxEff handlers action idx).hwrite) = (w, false) := by
    rw [hw]
    simp only [applyWrite]
    unfold middlewareReturnHandler
    simp [hp]
  simp only [hg, Bool.false_eq_true, if_false, hpr, hs, nextTopIdx_quiet, hnw]
  by_cases hc : handlers.length < idx + 1
  · have hstop : isStoppedGo ((idx + 1 : Nat) : Int) handlers.length = true := by
      rw [isStoppedGo_nat]; simpa
    rw [runTopF_out_of_range handlers action fuel (idx + 1) w hc, if_pos hstop]
  · have hstop : ¬ (isStoppedGo ((idx + 1 : Nat) : Int) handlers.length = true) := by
      rw [isStoppedGo_nat]; simp; omega
    rw [if_neg hstop]

theorem runTopF_protostop (handlers : List HEff) (action : HEff)
    (fuel idx : Nat) (w : RW)
    (hidx : idx ≤ handlers.length)
    (hp : passthroughVals (ctxEff handlers action idx).ret = false) :
    (runTopF (fuel + 1) handlers action idx w).2.2 = [idx] := by
  rw [runTopF]
  simp only []
  have hg : isStoppedGo (idx : Int) handlers.length = false := by
    rw [isStoppedGo_nat]; simp; omega
  have hstop := mrh_stop_of_not_passthrough (ctxEff handlers action idx).ret
    (applyWrite w (ctxEff handlers action idx).hwrite) hp
  simp only [hg, Bool.false_eq_true, if_false, hstop, nextTopIdx_pstop]
  have hns : isStoppedGo ((handlers.length + 2 : Nat) : Int) handlers.length = true := by
    rw [isStoppedGo_nat]
    simp
  rw [if_pos hns]
  split <;> rfl

theorem runRouteF_out_of_range (rh : List HEff) (pn fuel pidx ridx : Nat) (w : RW)
    (h : rh.length ≤ ridx) :
    runRouteF fuel rh pn pidx ridx w = (ridx, pidx, w, []) := by
  cases fuel with
  | zero => rfl
  | succ fuel =>
    rw [runRouteF]
    simp [h]

theorem runRouteF_all_run (rh : List HEff) (pn : Nat)
    (hall : ∀ h ∈ rh, h.ret = [] ∧ h.hwrite = none) :
    ∀ (fuel pidx ridx : Nat) (w : RW), rh.length ≤ fuel + ridx →
      rwWritten w = false →
      (runRouteF fuel rh pn pidx ridx w).2.2.2 = List.range' ridx (rh.length - ridx) ∧
      (runRouteF fuel rh pn pidx ridx w).2.2.1 = w := by
  intro fuel
  induction fuel with
  | zero =>
    intro pidx ridx w hf hnw
    have h0 : rh.length - ridx = 0 := by omega
    simp [runRouteF, h0]
  | succ fuel ih =>
    intro pidx ridx w hf hnw
    rw [runRouteF]
    simp only []
    by_cases hg : rh.length ≤ ridx
    · have h0 : rh.length - ridx = 0 := by omega
      simp [hg, h0]
    · have hlt : ridx < rh.length := by omega
      have hmem : rh.getD ridx dEff ∈ rh := by
        rw [List.getD_eq_getElem rh dEff hlt]
        exact List.getElem_mem hlt
      obtain ⟨hret, hwr⟩ := hall _ hmem
      have hsub := ih (if (rh.getD ridx dEff).callsStop then pn + 1 else pidx)
        (ridx + 1) w (by omega) hnw
      have hrange : List.range' ridx (rh.length - ridx) =
          ridx :: List.range' (ridx + 1) (rh.length - (ridx + 1)) := by
        have : rh.length - ridx = (rh.length - (ridx + 1)) + 1 := by omega
        rw [this]
        exact List.range'_succ ridx (rh.length - (ridx + 1)) 1
      simp only [List.getD_eq_getElem?_getD] at hret hwr hsub ⊢
      simp only [hg, if_false, hret, hwr, applyWrite, List.isEmpty_nil, if_true, hnw,
        Bool.false_eq_true]
      constructor
      · rw [hrange]
        simp only [List.cons.injEq, true_and]
        exact hsub.1
      · exact hsub.2

theorem runRouteF_vals_exit (rh : List HEff) (pn fuel pidx ridx : Nat) (w : RW)
    (hlt : ridx < rh.length)
    (hret : (rh.getD ridx dEff).ret ≠ []) :
    runRouteF (fuel + 1) rh pn pidx ridx w =
      (ridx + 1,
       (if (routerReturnHandler (rh.getD ridx dEff).ret
              (applyWrite w (rh.getD ridx dEff).hwrite)).2 then pn + 1
        else if (rh.getD ridx dEff).callsStop then pn + 1 else pidx),
       (routerReturnHandler (rh.getD ridx dEff).ret
          (applyWrite w (rh.getD ridx dEff).hwrite)).1,
       [ridx]) := by
  rw [runRouteF]
  simp only []
  rw [if_neg (show ¬ rh.length ≤ ridx by omega)]
  have hie : ¬ ((rh.getD ridx dEff).ret.isEmpty = true) := by
    rw [List.isEmpty_iff]
    exact hret
  rw [if_neg hie]

theorem runRouteF_continue (rh : List HEff) (pn fuel pidx ridx : Nat) (w : RW)
    (hlt : ridx < rh.length)
    (hret : (rh.getD ridx dEff).ret = [])
    (hwr : (rh.getD ridx dEff).hwrite = none)
    (hnw : rwWritten w = false) :
    runRouteF (fuel + 1) rh pn pidx ridx w =
      ((runRouteF fuel rh pn
          (if (rh.getD ridx dEff).callsStop then pn + 1 else pidx) (ridx + 1) w).1,
       (runRouteF fuel rh pn
          (if (rh.getD ridx dEff).callsStop then pn + 1 else pidx) (ridx + 1) w).2.1,
       (runRouteF fuel rh pn
          (if (rh.getD ridx dEff).callsStop then pn + 1 else pidx) (ridx + 1) w).2.2.1,
       ridx :: (runRouteF fuel rh pn
          (if (rh.getD ridx dEff).callsStop then pn + 1 else pidx) (ridx + 1) w).2.2.2) := by
  rw [runRouteF]
  simp only []
  rw [if_neg (show ¬ rh.length ≤ ridx by omega), hwr, hret]
  simp only [applyWrite, List.isEmpty_nil, if_true, hnw, Bool.false_eq_true, if_false]

theorem runRouteF_trace_head (rh : List HEff) (pn fuel pidx ridx : Nat) (w : RW)
    (hlt : ridx < rh.length) :
    ∃ tr, (runRouteF (fuel + 1) rh pn pidx ridx w).2.2.2 = ridx :: tr := by
  rw [runRouteF]
  simp only []
  rw [if_neg (show ¬ rh.length ≤ ridx by omega)]
  split
  · split
    · exact ⟨[], rfl⟩
    · exact ⟨_, rfl⟩
  · exact ⟨[], rfl⟩

theorem runTopF_trace_head (handlers : List HEff) (action : HEff)
    (fuel idx : Nat) (w : RW) (hidx : idx ≤ handlers.length) :
    ∃ tr, (runTopF (fuel + 1) handlers action idx w).2.2 = idx :: tr := by
  rw [runTopF]
  simp only []
  have hg : ¬ (isStoppedGo (idx : Int) handlers.length = true) := by
    rw [isStoppedGo_nat]; simp; omega
  rw [if_neg hg]
  split
  · exact ⟨[], rfl⟩
  · split
    · exact ⟨[], rfl⟩
    · exact ⟨_, rfl⟩

theorem rwWritten_rwWrite (w : RW) (b : List Nat) :
    rwWritten (rwWrite w b) = true := by
  simp [rwWritten, rwWrite]

/-! Claim theorems. -/

/-- C1, counterexample: in the route-scoped context the handler at index 0
calls `Stop()`, writes nothing and returns no values, yet the handler at
index 1 is still invoked (`routeContext.run` never consults `IsStopped`;
the `Stop` lands on the parent context, whose cursor ends at 4 = 3 + 1),
falsifying "no handler after the current index in that same context runs". -/
theorem route_stop_cex :
    (runRoute [⟨true, none, []⟩, ⟨false, none, []⟩] 3 0 0 ⟨none, []⟩).2.2.2 = [0, 1] ∧
    (runRoute [⟨true, none, []⟩, ⟨false, none, []⟩] 3 0 0 ⟨none, []⟩).2.1 = 4 ∧
    (⟨true, none, []⟩ : HEff).callsStop = true := by
  decide

/-- C1 (amended): `Stop()` confines execution only in the top-level
middleware context: if an invoked cursor position's handler calls `Stop()`,
no later position is invoked there.  In the route-scoped context `Stop()`
delegates to the parent top-level context and the route chain continues: a
route chain whose handlers return no values and write nothing is traversed
in full regardless of `Stop()` calls. -/
theorem stop_semantics :
    (∀ (handlers : List HEff) (action : HEff) (idx : Nat) (w : RW) (i : Nat),
      i ∈ (runTop handlers action idx w).2.2 →
      (ctxEff handlers action i).callsStop = true →
      ∀ j ∈ (runTop handlers action idx w).2.2, j ≤ i) ∧
    (∀ (rh : List HEff) (pn pidx : Nat) (w : RW),
      (∀ h ∈ rh, h.ret = [] ∧ h.hwrite = none) →
      rwWritten w = false →
      (runRoute rh pn pidx 0 w).2.2.2 = List.range' 0 rh.length) := by
  constructor
  · intro handlers action idx w i hi hstop j hj
    exact runTopF_stop_confines handlers action _ idx w i hi hstop j hj
  · intro rh pn pidx w hall hnw
    have h := (runRouteF_all_run rh pn hall (rh.length - 0) pidx 0 w (by omega) hnw).1
    simpa using h

/-- Witness for the amended C1 at concrete inputs. -/
theorem stop_semantics_witness :
    ((0 : Nat) ≤ 0) ∧
    (runRoute [⟨true, none, []⟩] 2 0 0 ⟨none, []⟩).2.2.2 = List.range' 0 1 :=
  ⟨stop_semantics.1 [⟨true, none, []⟩] ⟨false, none, []⟩ 0 ⟨none, []⟩ 0
      (by decide) (by decide) 0 (by decide),
   stop_semantics.2 [⟨true, none, []⟩] 2 0 ⟨none, []⟩ (by decide) (by decide)⟩

/-- C2, counterexample: a route handler returning exactly one boolean
`true` writes nothing and stops nothing, yet the next handler in the route
chain is not invoked — `routeContext.run` returns after any non-empty
value list.  The trace is `[0]`, the writer untouched, the parent cursor
unchanged. -/
theorem route_true_cex :
    runRoute [⟨false, none, [RVal.rbool true]⟩, ⟨false, none, []⟩] 3 0 0 ⟨none, []⟩ =
      (1, 0, ⟨none, []⟩, [0]) := by
  decide

/-- C2 (amended): with no return values or a first returned value of
boolean `true`, nothing is written.  In the top-level middleware context
the chain then continues to the next cursor position.  In the route-scoped
context only an empty return continues the chain; any non-empty return
value list ends the route loop right after the route protocol runs (for a
single `true` with nothing written and no context stopped). -/
theorem passthrough_continuation :
    (∀ (handlers : List HEff) (action : HEff) (idx : Nat) (w : RW),
      idx ≤ handlers.length →
      (ctxEff handlers action idx).callsStop = false →
      (ctxEff handlers action idx).hwrite = none →
      passthroughVals (ctxEff handlers action idx).ret = true →
      rwWritten w = false →
      (runTop handlers action idx w).2.2 = idx :: (runTop handlers action (idx + 1) w).2.2 ∧
      (idx + 1 ≤ handlers.length → (idx + 1) ∈ (runTop handlers action idx w).2.2)) ∧
    (∀ (rh : List HEff) (pn pidx ridx : Nat) (w : RW),
      ridx < rh.length →
      (rh.getD ridx dEff).ret = [] →
      (rh.getD ridx dEff).hwrite = none →
      rwWritten w = false →
      (runRoute rh pn pidx ridx w).2.2.2 =
        ridx :: (runRoute rh pn
          (if (rh.getD ridx dEff).callsStop then pn + 1 else pidx) (ridx + 1) w).2.2.2 ∧
      (ridx + 1 < rh.length → (ridx + 1) ∈ (runRoute rh pn pidx ridx w).2.2.2)) ∧
    (∀ (rh : List HEff) (pn pidx ridx : Nat) (w : RW),
      ridx < rh.length →
      (rh.getD ridx dEff).ret ≠ [] →
      (runRoute rh pn pidx ridx w).2.2.2 = [ridx] ∧
      ((rh.getD ridx dEff).ret = [RVal.rbool true] →
        (runRoute rh pn pidx ridx w).2.2.1 = applyWrite w (rh.getD ridx dEff).hwrite ∧
        (runRoute rh pn pidx ridx w).2.1 =
          (if (rh.getD ridx dEff).callsStop then pn + 1 else pidx))) := by
  refine ⟨?_, ?_, ?_⟩
  · intro handlers action idx w hidx hs hw hp hnw
    have hfuel : handlers.length + 1 - idx = (handlers.length - idx) + 1 := by omega
    have heq := runTopF_continue handlers action (handlers.length - idx) idx w hidx hs hw hp hnw
    have hwrap : runTop handlers action idx w =
        runTopF ((handlers.length - idx) + 1) handlers action idx w := by
      rw [runTop, hfuel]
    have hwrap2 : runTop handlers action (idx + 1) w =
        runTopF (handlers.length - idx) handlers action (idx + 1) w := by
      rw [runTop]
      congr 1
      omega
    constructor
    · rw [hwrap, heq, hwrap2]
    · intro hlt
      rw [hwrap, heq]
      rcases Nat.exists_eq_add_of_le (show 1 ≤ handlers.length - idx by omega) with ⟨k, hk⟩
      obtain ⟨tr, htr⟩ := runTopF_trace_head handlers action
        (handlers.length - idx - 1) (idx + 1) w (by omega)
      have : handlers.length - idx = (handlers.length - idx - 1) + 1 := by omega
      rw [this, htr]
      simp
  · intro rh pn pidx ridx w hlt hret hwr hnw
    have hfuel : rh.length - ridx = (rh.length - (ridx + 1)) + 1 := by omega
    have heq := runRouteF_continue rh pn (rh.length - (ridx + 1)) pidx ridx w hlt hret hwr hnw
    have hwrap : runRoute rh pn pidx ridx w =
        runRouteF ((rh.length - (ridx + 1)) + 1) rh pn pidx ridx w := by
      rw [runRoute, hfuel]
    have hwrap2 : runRoute rh pn
        (if (rh.getD ridx dEff).callsStop then pn + 1 else pidx) (ridx + 1) w =
        runRouteF (rh.length - (ridx + 1)) rh pn
          (if (rh.getD ridx dEff).callsStop then pn + 1 else pidx) (ridx + 1) w := by
      rw [runRoute]
    constructor
    · rw [hwrap, heq, hwrap2]
    · intro hlt2
      rw [hwrap, heq]
      have hfuel2 : rh.length - (ridx + 1) = (rh.length - (ridx + 2)) + 1 := by omega
      obtain ⟨tr, htr⟩ := runRouteF_trace_head rh pn (rh.length - (ridx + 2))
        (if (rh.getD ridx dEff).callsStop then pn + 1 else pidx) (ridx + 1) w hlt2
      rw [hfuel2, htr]
      simp
  · intro rh pn pidx ridx w hlt hret
    have hfuel : rh.length - ridx = (rh.length - (ridx + 1)) + 1 := by omega
    have heq := runRouteF_vals_exit rh pn (rh.length - (ridx + 1)) pidx ridx w hlt hret
    have hwrap : runRoute rh pn pidx ridx w =
        runRouteF ((rh.length - (ridx + 1)) + 1) rh pn pidx ridx w := by
      rw [runRoute, hfuel]
    constructor
    · rw [hwrap, heq]
    · intro htrue
      have hproto : routerReturnHandler (rh.getD ridx dEff).ret
          (applyWrite w (rh.getD ridx dEff).hwrite) =
          (applyWrite w (rh.getD ridx dEff).hwrite, false) := by
        rw [htrue]
        rfl
      rw [hwrap, heq, hproto]
      simp

/-- Witness for the amended C2 at concrete inputs. -/
theorem passthrough_continuation_witness :
    ((runTop [⟨false, none, []⟩, ⟨false, none, []⟩] ⟨false, none, []⟩ 0 ⟨none, []⟩).2.2 =
      0 :: (runTop [⟨false, none, []⟩, ⟨false, none, []⟩] ⟨false, none, []⟩ 1 ⟨none, []⟩).2.2 ∧
      (0 + 1 ≤ 2 → (0 + 1) ∈
        (runTop [⟨false, none, []⟩, ⟨false, none, []⟩] ⟨false, none, []⟩ 0 ⟨none, []⟩).2.2)) ∧
    ((runRoute [⟨false, none, [RVal.rbool true]⟩] 3 0 0 ⟨none, []⟩).2.2.2 = [0]) :=
  ⟨passthrough_continuation.1 [⟨false, none, []⟩, ⟨false, none, []⟩] ⟨false, none, []⟩ 0
      ⟨none, []⟩ (by decide) (by decide) (by decide) (by decide) (by decide),
   (passthrough_continuation.2.2 [⟨false, none, [RVal.rbool true]⟩] 3 0 0 ⟨none, []⟩
      (by decide) (by decide)).1⟩

/-- C3, counterexample: the value list `[true, other]` is neither zero
values nor a single boolean `true`, so by the claim the middleware-level
protocol should stop the top-level context; but the code's no-write test
accepts any list whose first value is a boolean `true`, so nothing is
stopped, nothing written, and both the second middleware handler and the
terminal action still run (trace `[0, 1, 2]`). -/
theorem middleware_true_pair_cex :
    middlewareReturnHandler [RVal.rbool true, RVal.rother] ⟨none, []⟩ = (⟨none, []⟩, false) ∧
    (runTop [⟨false, none, [RVal.rbool true, RVal.rother]⟩, ⟨false, none, []⟩]
        ⟨false, none, []⟩ 0 ⟨none, []⟩).2.2 = [0, 1, 2] ∧
    [RVal.rbool true, RVal.rother] ≠ ([] : List RVal) ∧
    [RVal.rbool true, RVal.rother] ≠ [RVal.rbool true] := by
  decide

/-- C3 (amended): the middleware-level protocol stops the top-level context
for every value list outside the code's no-write case (empty, or first
value a boolean `true` — regardless of arity), and the top-level run loop
then invokes nothing further; the route-level protocol never calls `Stop`
except for the single boolean `false`. -/
theorem protocol_stop_policy :
    (∀ (vals : List RVal) (w : RW), passthroughVals vals = false →
      (middlewareReturnHandler vals w).2 = true) ∧
    (∀ (vals : List RVal) (w : RW), vals ≠ [RVal.rbool false] →
      (routerReturnHandler vals w).2 = false) ∧
    (∀ (handlers : List HEff) (action : HEff) (idx : Nat) (w : RW),
      idx ≤ handlers.length →
      passthroughVals (ctxEff handlers action idx).ret = false →
      (runTop handlers action idx w).2.2 = [idx]) := by
  refine ⟨mrh_stop_of_not_passthrough, rrh_no_stop, ?_⟩
  intro handlers action idx w hidx hp
  have hfuel : handlers.length + 1 - idx = (handlers.length - idx) + 1 := by omega
  rw [runTop, hfuel]
  exact runTopF_protostop handlers action (handlers.length - idx) idx w hidx hp

/-- Witness for the amended C3 at concrete inputs. -/
theorem protocol_stop_policy_witness :
    (middlewareReturnHandler [RVal.rint 404] ⟨none, []⟩).2 = true ∧
    (routerReturnHandler [RVal.rstr (chars "ok")] ⟨none, []⟩).2 = false ∧
    (runTop [⟨false, none, [RVal.rint 500, RVal.rstr (chars "err")]⟩, ⟨false, none, []⟩]
        ⟨false, none, []⟩ 0 ⟨none, []⟩).2.2 = [0] :=
  ⟨protocol_stop_policy.1 [RVal.rint 404] ⟨none, []⟩ (by decide),
   protocol_stop_policy.2.1 [RVal.rstr (chars "ok")] ⟨none, []⟩ (by decide),
   protocol_stop_policy.2.2 [⟨false, none, [RVal.rint 500, RVal.rstr (chars "err")]⟩,
      ⟨false, none, []⟩] ⟨false, none, []⟩ 0 ⟨none, []⟩ (by decide) (by decide)⟩

/-- C4, counterexample: a route handler returning a single boolean `false`
makes the route protocol call `ctx.Stop()`, but `routeContext` has no
`Stop` of its own — the call reaches the embedded top-level context, whose
cursor ends at 6 = 5 + 1, i.e. stopped.  This falsifies "the route-level
protocol stops only the route-scoped context, leaving the top-level
middleware context able to continue". -/
theorem route_false_parent_cex :
    runRoute [⟨false, none, [RVal.rbool false]⟩] 5 0 0 ⟨none, []⟩ =
      (1, 6, ⟨none, [[]]⟩, [0]) ∧
    isStoppedGo 6 5 = true := by
  decide

/-- C4 (amended): a single returned boolean `false` makes both protocols
write an empty body and call `Stop()`; in both cases the `Stop` lands on
the top-level context (the route context delegates `Stop` to its parent).
In a route chain, the handler returning `false` is thus the last one
invoked there and the parent cursor becomes parent-length + 1; in the
top-level chain the cursor jumps past the stopped terminal. -/
theorem single_false_semantics :
    (∀ w : RW, routerReturnHandler [RVal.rbool false] w = (rwWrite w [], true)) ∧
    (∀ w : RW, middlewareReturnHandler [RVal.rbool false] w = (rwWrite w [], true)) ∧
    (∀ (rest : List HEff) (pn pidx : Nat) (w : RW) (b : Bool) (hw : Option (List Nat)),
      runRoute (⟨b, hw, [RVal.rbool false]⟩ :: rest) pn pidx 0 w =
        (1, pn + 1, rwWrite (applyWrite w hw) [], [0])) ∧
    (∀ (rest : List HEff) (action : HEff) (w : RW) (b : Bool) (hw : Option (List Nat)),
      runTop (⟨b, hw, [RVal.rbool false]⟩ :: rest) action 0 w =
        (rest.length + 1 + 2, rwWrite (applyWrite w hw) [], [0])) := by
  refine ⟨fun w => rfl, fun w => rfl, ?_, ?_⟩
  · intro rest pn pidx w b hw
    have hlt : 0 < (⟨b, hw, [RVal.rbool false]⟩ :: rest : List HEff).length := by
      simp
    have heq := runRouteF_vals_exit (⟨b, hw, [RVal.rbool false]⟩ :: rest) pn
      rest.length pidx 0 w hlt (by simp [List.getD_cons_zero])
    have hwrap : runRoute (⟨b, hw, [RVal.rbool false]⟩ :: rest) pn pidx 0 w =
        runRouteF (rest.length + 1) (⟨b, hw, [RVal.rbool false]⟩ :: rest) pn pidx 0 w := by
      rw [runRoute]
      congr 1
      try simp
    rw [hwrap, heq]
    have hproto : routerReturnHandler [RVal.rbool false] (applyWrite w hw) =
        (rwWrite (applyWrite w hw) [], true) := rfl
    simp [hproto]
  · intro rest action w b hw
    have hfuel : (⟨b, hw, [RVal.rbool false]⟩ :: rest : List HEff).length + 1 - 0 =
        (rest.length + 1) + 1 := by simp
    rw [runTop, hfuel, runTopF]
    have hg : ¬ (isStoppedGo ((0 : Nat) : Int)
        (⟨b, hw, [RVal.rbool false]⟩ :: rest : List HEff).length = true) := by
      rw [isStoppedGo_nat]
      simp
    rw [if_neg hg]
    simp only []
    have hctx : ctxEff (⟨b, hw, [RVal.rbool false]⟩ :: rest) action 0 =
        ⟨b, hw, [RVal.rbool false]⟩ := by
      simp [ctxEff]
    rw [hctx]
    have hproto : middlewareReturnHandler [RVal.rbool false] (applyWrite w hw) =
        (rwWrite (applyWrite w hw) [], true) := rfl
    simp only [hproto, nextTopIdx_pstop, rwWritten_rwWrite, if_true, List.length_cons]

/-- C5: the counter/shutdown behaviour of `ServeHTTP` evaluated at the
failing input.  Starting from the initial counter 0 with the server
stopping, one completed request leaves the counter at -1 and never signals
closure (the code only decrements, there is no increment anywhere), whereas
the spec-modelled increment-then-decrement behaviour returns the counter to
0 and signals; and `Stop()` with one request logically in flight signals
immediately because the counter was never incremented. -/
theorem serve_counter_bug_eval :
    serveHTTPCounter ⟨0, true, 0⟩ = ⟨-1, true, 0⟩ ∧
    serveHTTPCounterSpec ⟨0, true, 0⟩ = ⟨0, true, 1⟩ ∧
    stopServer ⟨0, false, 0⟩ = ⟨0, true, 1⟩ := by
  decide

/-- C6, counterexample: with a one-handler chain and the cursor at
1 = len(handlers) — i.e. at (hence "at or past") the chain length — the
claim says `IsStopped()` is true, but the code (`!(index <= len)`) returns
false: the terminal action still runs at this cursor. -/
theorem is_stopped_at_len_cex :
    isStoppedGo 1 1 = false ∧ ((1 : Int) ≥ ((1 : Nat) : Int)) := by
  decide

/-- C6 (amended): over the valid cursor range [-1, len+1], `IsStopped()`
returns true exactly when the cursor is strictly past the chain length,
i.e. equal to len+1 (the explicit stopped state set by `Stop`); at cursor
= len the terminal action still runs. -/
theorem is_stopped_iff :
    ∀ (idx : Int) (n : Nat), -1 ≤ idx → idx ≤ (n : Int) + 1 →
      (isStoppedGo idx n = true ↔ idx = (n : Int) + 1) := by
  intro idx n h1 h2
  simp only [isStoppedGo, Bool.not_eq_true', decide_eq_false_iff_not, not_le]
  omega

/-- Witness for the amended C6 at a concrete input. -/
theorem is_stopped_iff_witness : isStoppedGo 2 1 = true :=
  (is_stopped_iff 2 1 (by decide) (by decide)).mpr (by decide)

/-- C10: the pattern `/file.txt` is compiled with `.` interpreted as the
regex any-character metacharacter rather than a literal dot, so the route
matches the path `/fileXtxt` (where the metacharacter position holds `X`)
just as it matches `/file.txt`. -/
theorem regex_dot_metachar :
    (newRouteModel (chars "GET") (chars "/file.txt")).map
      (fun rt => (routeMatchRank rt (chars "GET") (chars "/fileXtxt"),
                  routeMatchRank rt (chars "GET") (chars "/file.txt"))) =
      some (RouteMatchKind.exactMatch, RouteMatchKind.exactMatch) := by
  decide

theorem rmRank_le_three (m : RouteMatchKind) : rmRank m ≤ 3 := by
  cases m <;> simp [rmRank]

theorem rmRank_inj {a b : RouteMatchKind} (h : rmRank a = rmRank b) : a = b := by
  cases a <;> cases b <;> simp_all [rmRank]

theorem rmRank_eq_zero {a : RouteMatchKind} (h : rmRank a = 0) :
    a = RouteMatchKind.noMatch := by
  cases a <;> simp_all [rmRank]

theorem maxRank_left {b m : RouteMatchKind} (h : rmRank m ≤ rmRank b) :
    maxRank b m = b := by
  unfold maxRank
  rw [if_neg]
  omega

theorem maxRank_right {b m : RouteMatchKind} (h : rmRank b < rmRank m) :
    maxRank b m = m := by
  unfold maxRank
  rw [if_pos h]

theorem rank_le_maxRank (b m : RouteMatchKind) :
    rmRank b ≤ rmRank (maxRank b m) := by
  unfold maxRank
  split <;> omega

theorem rank_le_fold (ms : List RouteMatchKind) :
    ∀ b, rmRank b ≤ rmRank (ms.foldl maxRank b) := by
  induction ms with
  | nil => intro b; simp
  | cons m rest ih =>
    intro b
    rw [List.foldl_cons]
    exact le_trans (rank_le_maxRank b m) (ih (maxRank b m))

theorem fold_exact_absorb (ms : List RouteMatchKind) :
    ms.foldl maxRank .exactMatch = .exactMatch := by
  induction ms with
  | nil => rfl
  | cons m rest ih =>
    rw [List.foldl_cons, maxRank_left (by simpa [rmRank] using rmRank_le_three m)]
    exact ih

theorem betterThan_iff (m b : RouteMatchKind) :
    betterThan m b = true ↔ rmRank b < rmRank m := by
  simp [betterThan]

/-- Characterisation of the scan loop for arbitrary accumulator state. -/
theorem scanRoutes_spec (method path : List Char) :
    ∀ (routes : List RouteT) (i : Nat) (best : RouteMatchKind) (bi : Option Nat),
      scanRoutes method path routes i best bi =
        ((routes.map (fun rt => routeMatchRank rt method path)).foldl maxRank best,
         (if rmRank best <
              rmRank ((routes.map (fun rt => routeMatchRank rt method path)).foldl maxRank best)
          then (firstIdxOf (routes.map (fun rt => routeMatchRank rt method path))
                  ((routes.map (fun rt => routeMatchRank rt method path)).foldl maxRank best)).map
                (· + i)
          else bi),
         (if best = RouteMatchKind.exactMatch then routes.length
          else
            match firstIdxOf (routes.map (fun rt => routeMatchRank rt method path))
                RouteMatchKind.exactMatch with
            | some j => j + 1
            | none => routes.length)) := by
  intro routes
  induction routes with
  | nil =>
    intro i best bi
    simp only [scanRoutes, List.map_nil, List.foldl_nil, firstIdxOf, List.length_nil]
    rw [if_neg (by omega)]
    split <;> rfl
  | cons rt rest ih =>
    intro i best bi
    simp only [scanRoutes, List.map_cons, List.foldl_cons, List.length_cons]
    by_cases hb : betterThan (routeMatchRank rt method path) best = true
    · rw [betterThan_iff] at hb
      rw [if_pos (by rw [betterThan_iff]; exact hb)]
      rw [maxRank_right hb]
      by_cases hex : routeMatchRank rt method path = RouteMatchKind.exactMatch
      · rw [if_pos hex, hex]
        rw [fold_exact_absorb]
        have hbne : best ≠ RouteMatchKind.exactMatch := by
          intro he
          rw [he, hex] at hb
          omega
        simp only [Prod.mk.injEq]
        refine ⟨trivial, ?_, ?_⟩
        · rw [if_pos (by rw [hex] at hb; exact hb)]
          simp [firstIdxOf]
        · rw [if_neg hbne]
          simp [firstIdxOf]
      · rw [if_neg hex, ih (i + 1) (routeMatchRank rt method path) (some i)]
        have hfold := rank_le_fold (rest.map (fun rt => routeMatchRank rt method path))
          (routeMatchRank rt method path)
        have hbne : best ≠ RouteMatchKind.exactMatch := by
          intro he
          have h3 := rmRank_le_three (routeMatchRank rt method path)
          rw [he, show rmRank RouteMatchKind.exactMatch = 3 from rfl] at hb
          omega
        simp only [Prod.mk.injEq]
        refine ⟨trivial, ?_, ?_⟩
        · by_cases hm : rmRank (routeMatchRank rt method path) <
              rmRank ((rest.map (fun rt => routeMatchRank rt method path)).foldl maxRank
                (routeMatchRank rt method path))
          · rw [if_pos hm, if_pos (by omega)]
            have hne : routeMatchRank rt method path ≠
                (rest.map (fun rt => routeMatchRank rt method path)).foldl maxRank
                  (routeMatchRank rt method path) := by
              intro he
              rw [← he] at hm
              omega
            rw [firstIdxOf, if_neg hne]
            cases hfi : firstIdxOf (rest.map (fun rt => routeMatchRank rt method path))
                ((rest.map (fun rt => routeMatchRank rt method path)).foldl maxRank
                  (routeMatchRank rt method path)) with
            | none => rfl
            | some j =>
              simp only [Option.map_some']
              congr 1
              omega
          · rw [if_neg hm]
            have heq : (rest.map (fun rt => routeMatchRank rt method path)).foldl maxRank
                (routeMatchRank rt method path) = routeMatchRank rt method path :=
              (rmRank_inj (by omega)).symm
            rw [if_pos (by rw [heq]; exact hb)]
            rw [heq, firstIdxOf, if_pos rfl]
            simp
        · rw [if_neg hex, if_neg hbne]
          rw [firstIdxOf, if_neg hex]
          cases hfi : firstIdxOf (rest.map (fun rt => routeMatchRank rt method path))
              RouteMatchKind.exactMatch with
          | none => rfl
          | some j => rfl
    · rw [if_neg hb]
      rw [betterThan_iff] at hb
      push_neg at hb
      rw [maxRank_left hb, ih (i + 1) best bi]
      have hfold := rank_le_fold (rest.map (fun rt => routeMatchRank rt method path)) best
      simp only [Prod.mk.injEq]
      refine ⟨trivial, ?_, ?_⟩
      · by_cases hm : rmRank best <
            rmRank ((rest.map (fun rt => routeMatchRank rt method path)).foldl maxRank best)
        · rw [if_pos hm, if_pos hm]
          have hne : routeMatchRank rt method path ≠
              (rest.map (fun rt => routeMatchRank rt method path)).foldl maxRank best := by
            intro he
            rw [← he] at hm
            omega
          rw [firstIdxOf, if_neg hne]
          cases hfi : firstIdxOf (rest.map (fun rt => routeMatchRank rt method path))
              ((rest.map (fun rt => routeMatchRank rt method path)).foldl maxRank best) with
          | none => rfl
          | some j =>
            simp only [Option.map_some']
            congr 1
            omega
        · rw [if_neg hm, if_neg hm]
      · by_cases hbe : best = RouteMatchKind.exactMatch
        · rw [if_pos hbe, if_pos hbe]
        · rw [if_neg hbe, if_neg hbe]
          have hmne : routeMatchRank rt method path ≠ RouteMatchKind.exactMatch := by
            intro he
            rw [he, show rmRank RouteMatchKind.exactMatch = 3 from rfl] at hb
            have h3 := rmRank_le_three best
            refine hbe (rmRank_inj ?_)
            rw [show rmRank RouteMatchKind.exactMatch = 3 from rfl]
            omega
          rw [firstIdxOf, if_neg hmne]
          cases hfi : firstIdxOf (rest.map (fun rt => routeMatchRank rt method path))
              RouteMatchKind.exactMatch with
          | none => rfl
          | some j => rfl

/-- C7: the dispatch scan of `router.Handle` selects exactly the
spec-described route — the earliest-registered route attaining the best
rank under ExactMatch > OverloadMatch > StarMatch > NoMatch, with the
not-found chain when every rank is NoMatch — and stops examining routes
right after the first exact match. -/
theorem dispatch_scan_correct :
    ∀ (routes : List RouteT) (method path : List Char),
      handleSel routes method path =
        (dispatchSpec (routes.map (fun rt => routeMatchRank rt method path)),
         examinedSpec (routes.map (fun rt => routeMatchRank rt method path))) := by
  intro routes method path
  rw [handleSel]
  try simp only []
  rw [scanRoutes_spec method path routes 0 RouteMatchKind.noMatch none]
  simp only [dispatchSpec, examinedSpec, bestRankOf]
  by_cases h0 : (routes.map (fun rt => routeMatchRank rt method path)).foldl maxRank
      RouteMatchKind.noMatch = RouteMatchKind.noMatch
  · rw [h0]
    simp [rmRank]
  · have hpos : 0 < rmRank ((routes.map (fun rt => routeMatchRank rt method path)).foldl
        maxRank RouteMatchKind.noMatch) := by
      rcases Nat.eq_zero_or_pos (rmRank ((routes.map
          (fun rt => routeMatchRank rt method path)).foldl maxRank
          RouteMatchKind.noMatch)) with hz | hp
      · exact absurd (rmRank_eq_zero hz) h0
      · exact hp
    simp only [Prod.mk.injEq]
    constructor
    · rw [if_pos h0,
        if_pos (show rmRank RouteMatchKind.noMatch <
          rmRank ((routes.map (fun rt => routeMatchRank rt method path)).foldl maxRank
            RouteMatchKind.noMatch) from hpos),
        if_neg h0]
      cases firstIdxOf (routes.map (fun rt => routeMatchRank rt method path))
          ((routes.map (fun rt => routeMatchRank rt method path)).foldl maxRank
            RouteMatchKind.noMatch) with
      | none => rfl
      | some j => simp
    · rw [if_neg (show ¬ (RouteMatchKind.noMatch = RouteMatchKind.exactMatch) by simp)]
      simp only [List.length_map]

theorem findSome_take_sound (r : Rgx) (s : List Char) :
    ∀ (l : List Nat) (t : List Char),
      (l.findSome? (fun k => if rmatch r (s.take k) then some (s.take k) else none)) =
        some t →
      rmatch r t = true := by
  intro l
  induction l with
  | nil => intro t h; simp at h
  | cons k ks ih =>
    intro t h
    rw [List.findSome?_cons] at h
    by_cases hk : rmatch r (s.take k) = true
    · rw [if_pos hk] at h
      simp only [] at h
      cases h
      exact hk
    · rw [if_neg hk] at h
      simp only [] at h
      exact ih t h

theorem longestHeadMatch_sound (r : Rgx) (s t : List Char)
    (h : longestHeadMatch r s = some t) : rmatch r t = true := by
  unfold longestHeadMatch at h
  exact findSome_take_sound r s _ t h

theorem findLeftmost_sound (r : Rgx) :
    ∀ (s t : List Char), findLeftmost r s = some t → rmatch r t = true := by
  intro s
  induction s with
  | nil =>
    intro t h
    rw [findLeftmost] at h
    exact longestHeadMatch_sound r [] t h
  | cons c rest ih =>
    intro t h
    rw [findLeftmost] at h
    cases hlm : longestHeadMatch r (c :: rest) with
    | some u =>
      rw [hlm] at h
      cases h
      exact longestHeadMatch_sound r (c :: rest) t hlm
    | none =>
      rw [hlm] at h
      exact ih t h

/-- C8: `route.Match` yields an outcome other than `NoMatch` only when the
compiled pattern matches the entire path string — the text found by the
regex engine must equal the whole path (`matches[0] == path`), never a
proper prefix or substring; the compiled pattern ends in `\/?`, so one
optional trailing slash is also accepted.  Concretely the route compiled
from `/users` accepts `/users` and `/users/` with an exact match and
rejects the extension `/users/far`. -/
theorem match_full_string_only :
    (∀ (rt : RouteT) (method path : List Char),
      routeMatchRank rt method path ≠ RouteMatchKind.noMatch →
      rmatch rt.rgx path = true) ∧
    ((newRouteModel (chars "GET") (chars "/users")).map
      (fun rt => (routeMatchRank rt (chars "GET") (chars "/users"),
                  routeMatchRank rt (chars "GET") (chars "/users/"),
                  routeMatchRank rt (chars "GET") (chars "/users/far"))) =
      some (RouteMatchKind.exactMatch, RouteMatchKind.exactMatch,
            RouteMatchKind.noMatch)) := by
  constructor
  · intro rt method path h
    unfold routeMatchRank at h
    simp only [] at h
    by_cases hm : matchMethodModel rt.method method = RouteMatchKind.noMatch
    · rw [if_pos hm] at h
      exact absurd rfl h
    · rw [if_neg hm] at h
      cases hfl : findLeftmost rt.rgx path with
      | none =>
        rw [hfl] at h
        exact absurd rfl h
      | some t =>
        rw [hfl] at h
        simp only [] at h
        by_cases ht : t = path
        · rw [ht] at hfl
          exact findLeftmost_sound rt.rgx path path hfl
        · rw [if_neg ht] at h
          exact absurd rfl h
  · decide

/-- Witness for C8 at a concrete route and path. -/
theorem match_full_string_only_witness :
    rmatch (((newRouteModel (chars "GET") (chars "/users")).getD
        ⟨[], [], Rgx.rfail, []⟩).rgx) (chars "/users/") = true :=
  match_full_string_only.1
    ((newRouteModel (chars "GET") (chars "/users")).getD ⟨[], [], Rgx.rfail, []⟩)
    (chars "GET") (chars "/users/") (by decide)

theorem tokens_agree :
    ∀ (fuel : Nat) (p : List Char), '(' ∉ p →
      urlTokensF fuel p = (specParamToksF fuel p).map pconv := by
  intro fuel
  induction fuel with
  | zero => intro p hp; simp [urlTokensF, specParamToksF]
  | succ fuel ih =>
    intro p hp
    cases p with
    | nil => simp [urlTokensF, specParamToksF]
    | cons c rest =>
      have hcp : c ≠ '(' := by
        intro he
        exact hp (by rw [he]; exact List.mem_cons_self '(' rest)
      have hrest : '(' ∉ rest := fun hm => hp (List.mem_cons_of_mem c hm)
      by_cases hc : c = ':' ∧ rest.takeWhile colonNameOk ≠ []
      · rw [urlTokensF.eq_def, specParamToksF.eq_def]
        simp only []
        rw [if_pos hc, if_pos hc]
        have hdrop : '(' ∉ rest.dropWhile colonNameOk := fun hm =>
          hrest ((rest.dropWhile_sublist colonNameOk).subset hm)
        rw [ih (rest.dropWhile colonNameOk) hdrop]
        simp [pconv]
      · rw [urlTokensF.eq_def, specParamToksF.eq_def]
        simp only []
        rw [if_neg hc, if_neg hc, if_neg hcp]
        rw [ih rest hrest]
        simp [pconv]

theorem subst_render :
    ∀ (ts : List PTok) (args : List (List Char)) (i : Nat),
      substToks (ts.map pconv) args i = renderSpecToks ts (args.drop i) := by
  intro ts
  induction ts with
  | nil => intro args i; simp [substToks, renderSpecToks]
  | cons t ts ih =>
    intro args i
    cases t with
    | plit c =>
      simp only [List.map_cons, pconv, substToks]
      rw [ih args i]
      rfl
    | pparam nm =>
      simp only [List.map_cons, pconv, substToks]
      by_cases hi : i < args.length
      · rw [if_pos hi, ih args (i + 1)]
        rw [List.drop_eq_getElem_cons hi]
        rw [List.getD_eq_getElem args [] hi]
        rfl
      · rw [if_neg hi, ih args (i + 1)]
        have h1 : args.drop i = [] := List.drop_eq_nil_of_le (by omega)
        have h2 : args.drop (i + 1) = [] := List.drop_eq_nil_of_le (by omega)
        rw [h1, h2]
        rfl

theorem render_nil_roundtrip :
    ∀ (fuel : Nat) (p : List Char), p.length ≤ fuel →
      renderSpecToks (specParamToksF fuel p) [] = p := by
  intro fuel
  induction fuel with
  | zero =>
    intro p hp
    have : p = [] := List.length_eq_zero.mp (by omega)
    rw [this]
    rfl
  | succ fuel ih =>
    intro p hp
    cases p with
    | nil => rfl
    | cons c rest =>
      by_cases hc : c = ':' ∧ rest.takeWhile colonNameOk ≠ []
      · rw [specParamToksF, if_pos hc]
        have hlen : (rest.dropWhile colonNameOk).length ≤ fuel := by
          have := (rest.dropWhile_sublist colonNameOk).length_le
          simp only [List.length_cons] at hp
          omega
        rw [renderSpecToks, ih (rest.dropWhile colonNameOk) hlen,
          List.takeWhile_append_dropWhile colonNameOk rest, hc.1]
      · rw [specParamToksF, if_neg hc]
        rw [renderSpecToks]
        have hlen : rest.length ≤ fuel := by
          simp only [List.length_cons] at hp
          omega
        rw [ih rest hlen]

/-- C9: registering the route `/users/:id` under the name `user` and
calling `URLFor("user", "42")` yields `/users/42`; and in general, on any
pattern without `(` (where the `urlReg` matches are exactly the `:name`
parameter tokens), `URLWith` substitutes each parameter token, in
left-to-right order of appearance, with the corresponding positional
argument, leaving a token's literal text in place when there are more
tokens than supplied arguments (in particular the whole pattern when no
arguments are supplied). -/
theorem urlfor_roundtrip_subst :
    ((newRouteModel (chars "GET") (chars "/users/:id")).map
      (fun rt => urlForModel [setRouteName rt (chars "user")] (chars "user")
        [UrlArg.argStr (chars "42")]) = some (some (chars "/users/42"))) ∧
    (∀ (p : List Char) (args : List (List Char)), '(' ∉ p →
      urlWithModel p args = renderSpecToks (specParamToks p) args) := by
  constructor
  · decide
  · intro p args hp
    rw [urlWithModel]
    by_cases ha : 0 < args.length
    · rw [if_pos ha, urlTokens, specParamToks, tokens_agree p.length p hp, subst_render]
      rw [List.drop_zero]
    · rw [if_neg ha]
      have hz : args = [] := List.length_eq_zero.mp (by omega)
      rw [hz, specParamToks]
      exact (render_nil_roundtrip p.length p (le_refl _)).symm

/-- Witness for C9's general substitution statement at a concrete
pattern. -/
theorem urlfor_roundtrip_subst_witness :
    urlWithModel (chars "/users/:id") [chars "42"] =
      renderSpecToks (specParamToks (chars "/users/:id")) [chars "42"] :=
  urlfor_roundtrip_subst.2 (chars "/users/:id") [chars "42"] (by decide)

end Yawf
